import Mathlib

/-!
Verification of the rag-agent service core against its design spec.

The JavaScript sources are shallowly embedded: strings are `String` / `List Char`,
JS numbers used as array indices and counters are `Nat` / `Int`, float vectors are
idealised as `List ℝ`, and the stateful services (`ConversationContextService`,
`SimpleVectorStore`) are explicit state-passing functions.  External services
(embedding model, chat model, uuid generator, `Date.now()`) are parameters.
-/

set_option linter.unusedVariables false
set_option maxHeartbeats 1000000
set_option maxRecDepth 100000

namespace RagAgent

/-! ### JavaScript string primitives -/

/-- Character class removed by `String.prototype.trim` (ASCII part of the
JS whitespace set; the documents handled by the service are ASCII text). -/
def jsWhitespace (c : Char) : Bool :=
  c = ' ' || c = '\t' || c = '\n' || c = '\r' || c = '\x0b' || c = '\x0c'

/-- `String.prototype.trim`: strip leading and trailing whitespace. -/
def jsTrim (s : List Char) : List Char :=
  ((s.dropWhile jsWhitespace).reverse.dropWhile jsWhitespace).reverse

/-- Largest index `i ≤ bound` at which `sub` occurs in `s`, if any. -/
def lastIndexFrom (sub s : List Char) : Nat → Option Nat
  | 0 => if sub.isPrefixOf s then some 0 else none
  | i + 1 =>
    if sub.isPrefixOf (s.drop (i + 1)) then some (i + 1) else lastIndexFrom sub s i

/-- `String.prototype.lastIndexOf(sub, pos)`: the largest index `≤ pos` (clamped
to `[0, length]`) at which `sub` occurs, or `-1`.  A negative `pos` behaves
like `0`, matching ECMAScript. -/
def jsLastIndexOf (sub s : List Char) (pos : Int) : Int :=
  match lastIndexFrom sub s (min pos.toNat s.length) with
  | some i => (i : Int)
  | none => -1

/-- `String.prototype.slice(a, b)` with ECMAScript index normalisation:
negative indices count from the end, then both are clamped to `[0, length]`. -/
def jsSlice (s : List Char) (a b : Int) : List Char :=
  let len : Int := s.length
  let lo := if a < 0 then max (len + a) 0 else min a len
  let hi := if b < 0 then max (len + b) 0 else min b len
  if lo < hi then (s.drop lo.toNat).take (hi - lo).toNat else []

/-- `Array.prototype.slice(-n)` for `n : Nat`: the last `n` elements, except
that `slice(-0)` is `slice(0)`, i.e. the whole array. -/
def jsSliceFromEnd (n : Nat) (l : List α) : List α :=
  if n = 0 then l else l.drop (l.length - n)

/-- `Array.prototype.slice(0, -e)` for `e : Nat`: drop the last `e` elements,
except that `slice(0, -0)` is `slice(0, 0)`, i.e. the empty array. -/
def jsSliceDropEnd (e : Nat) (l : List α) : List α :=
  if e = 0 then [] else l.take (l.length - e)

/-! ### TextSplitter (src/utils/textSplitter.js)

`splitText` runs a `while (start < text.length)` loop.  One iteration is
`splitStep`; the loop itself is fuel-indexed (`splitTextLoop`) because — as
proved below — it does not terminate for every configuration. -/

/-- One iteration of `TextSplitter.splitText`: compute the tentative end
`start + chunkSize`, pull it back to just past the last sentence (`.`) or
paragraph (`\n\n`) break when one occurs after `start`, emit the trimmed
slice, and return the next value of `start` (`end - chunkOverlap`). -/
def splitStep (chunkSize chunkOverlap : Nat) (text : List Char) (start : Int) :
    List Char × Int :=
  let end0 : Int := start + chunkSize
  let end1 : Int :=
    if end0 < (text.length : Int) then
      let sentenceEnd := jsLastIndexOf ['.'] text end0
      let paragraphEnd := jsLastIndexOf ['\n', '\n'] text end0
      let breakPoint := max sentenceEnd paragraphEnd
      if breakPoint > start then breakPoint + 1 else end0
    else end0
  (jsTrim (jsSlice text start end1), end1 - chunkOverlap)

/-- The `while` loop of `splitText`, with explicit fuel; `none` means the
fuel ran out before `start` reached the end of the text. -/
def splitTextLoop (chunkSize chunkOverlap : Nat) (text : List Char) :
    Int → Nat → Option (List (List Char))
  | _, 0 => none
  | start, fuel + 1 =>
    if start < (text.length : Int) then
      (splitTextLoop chunkSize chunkOverlap text
          (splitStep chunkSize chunkOverlap text start).2 fuel).map
        ((splitStep chunkSize chunkOverlap text start).1 :: ·)
    else
      some []

/-- `TextSplitter.splitText`: run the loop from `start = 0` (with fuel
`text.length + 1`, which suffices whenever the loop terminates at all for
the configurations proved below) and keep the chunks that are non-empty
after trimming. -/
def splitText (chunkSize chunkOverlap : Nat) (text : List Char) :
    Option (List (List Char)) :=
  (splitTextLoop chunkSize chunkOverlap text 0 (text.length + 1)).map
    (List.filter (fun c => decide (0 < c.length)))

/-- The `splitText` loop terminates from `start = 0` with some amount of fuel. -/
def SplitTerminates (chunkSize chunkOverlap : Nat) (text : List Char) : Prop :=
  ∃ fuel, (splitTextLoop chunkSize chunkOverlap text 0 fuel).isSome

/-! ### ConversationContextService (src/services/conversationContext.js)

Sessions live in a JS `Map` keyed by session id, modelled as an association
list.  Non-deterministic inputs of the source — `uuidv4()` for message ids and
`new Date()` timestamps — are explicit parameters (`msgId`, `now`). -/

structure Message where
  id : String
  role : String
  content : String
  timestamp : Nat
  metadata : List (String × String)
deriving DecidableEq, Repr

structure Conversation where
  messages : List Message
  createdAt : Nat
  lastAccessed : Nat
deriving DecidableEq, Repr

/-- The service state: the session map plus the two process-wide tunables. -/
structure ConvState where
  conversations : List (String × Conversation)
  maxContextLength : Nat
  maxTokens : Nat
deriving DecidableEq, Repr

/-- `Map.prototype.get` / `has` on the session map. -/
def lookupConv : List (String × Conversation) → String → Option Conversation
  | [], _ => none
  | (k, v) :: rest, sid => if k = sid then some v else lookupConv rest sid

/-- `Map.prototype.set` on the session map. -/
def setConv : List (String × Conversation) → String → Conversation →
    List (String × Conversation)
  | [], sid, conv => [(sid, conv)]
  | (k, v) :: rest, sid, conv =>
    if k = sid then (sid, conv) :: rest else (k, v) :: setConv rest sid conv

/-- `createSession`: register a fresh empty session under the given id. -/
def createSession (st : ConvState) (sessionId : String) (now : Nat) : ConvState :=
  { st with conversations :=
      setConv st.conversations sessionId ⟨[], now, now⟩ }

/-- `estimateTokens`: `reduce` over the messages of
`ceil(content.length / 4)`, starting from 0. -/
def estimateTokens (messages : List Message) : Nat :=
  messages.foldl (fun total message => total + (message.content.length + 3) / 4) 0

/-- The `while (totalTokens > maxTokens && messages.length > 2)` loop of
`trimConversation`: repeatedly drop the oldest message (`slice(1)`). -/
def tokenTrim (maxTokens : Nat) : List Message → List Message
  | [] => []
  | m :: rest =>
    if estimateTokens (m :: rest) > maxTokens ∧ (m :: rest).length > 2 then
      tokenTrim maxTokens rest
    else
      m :: rest

/-- `trimConversation` applied to a message list: first cap by count
(`slice(-maxContextLength)`), then cap by the estimated token budget. -/
def trimConversation (maxContextLength maxTokens : Nat) (messages : List Message) :
    List Message :=
  let m1 := if messages.length > maxContextLength
    then jsSliceFromEnd maxContextLength messages else messages
  tokenTrim maxTokens m1

/-- `addMessage`: auto-create the session when unknown, append the message,
update `lastAccessed`, and trim.  Returns the new state and the message. -/
def addMessage (st : ConvState) (sessionId role content : String)
    (msgId : String) (now : Nat) : ConvState × Message :=
  let message : Message := ⟨msgId, role, content, now, []⟩
  let convs0 := if (lookupConv st.conversations sessionId).isNone
    then setConv st.conversations sessionId ⟨[], now, now⟩
    else st.conversations
  let conversation := (lookupConv convs0 sessionId).getD ⟨[], now, now⟩
  let trimmed := trimConversation st.maxContextLength st.maxTokens
    (conversation.messages ++ [message])
  let updated := { conversation with messages := trimmed, lastAccessed := now }
  ({ st with conversations := setConv convs0 sessionId updated }, message)

/-- `buildSystemPrompt`: the fixed instructional preamble. -/
def buildSystemPrompt : String :=
  "You are a specialist AI agent with expertise in document analysis and question answering. \n\nYou have access to a knowledge base of documents and can maintain conversation context. When answering questions:\n\n1. Use the provided document context to give accurate, detailed answers\n2. Reference previous parts of the conversation when relevant\n3. Maintain consistency with earlier responses\n4. If you don\x27t know something based on the documents, clearly state this\n5. Provide specific citations from the source documents when possible\n\nRemember to be helpful, accurate, and maintain the conversation flow naturally."

/-- The synthesized system-role message `getContext` may prepend (the source
object carries no `id` or `metadata` field; they are defaulted here). -/
def systemMessage (now : Nat) : Message :=
  ⟨"", "system", buildSystemPrompt, now, []⟩

/-- `getContext`: the last `maxContextLength` messages, optionally preceded by
the system preamble; also updates `lastAccessed` for a known session. -/
def getContext (st : ConvState) (sessionId : String) (includeSystemMessage : Bool)
    (now : Nat) : ConvState × List Message :=
  match lookupConv st.conversations sessionId with
  | none => (st, if includeSystemMessage then [systemMessage now] else [])
  | some conversation =>
    let touched := { conversation with lastAccessed := now }
    let st1 := { st with conversations := setConv st.conversations sessionId touched }
    let context := jsSliceFromEnd st.maxContextLength conversation.messages
    (st1,
      if includeSystemMessage && decide (0 < context.length)
        then systemMessage now :: context else context)

/-- `getRecentContext`: `messages.slice(0, -excludeLast)` then the same
`slice(-maxContextLength)` window. -/
def getRecentContext (st : ConvState) (sessionId : String) (excludeLast : Nat) :
    List Message :=
  match lookupConv st.conversations sessionId with
  | none => []
  | some conversation =>
    jsSliceFromEnd st.maxContextLength
      (jsSliceDropEnd excludeLast conversation.messages)

/-- `Array.prototype.join(sep)`. -/
def joinSep (sep : String) : List String → String
  | [] => ""
  | [x] => x
  | x :: xs => x ++ sep ++ joinSep sep xs

/-- `getConversationSummary`: the last 5 messages rendered as
`role: content-truncated-to-100-chars` lines. -/
def getConversationSummary (st : ConvState) (sessionId : String) : String :=
  match lookupConv st.conversations sessionId with
  | none => ""
  | some conversation =>
    let recentMessages := jsSliceFromEnd 5 conversation.messages
    if recentMessages.length = 0 then ""
    else
      let summary := joinSep "\n" (recentMessages.map fun msg =>
        msg.role ++ ": " ++ msg.content.take 100 ++
          (if msg.content.length > 100 then "..." else ""))
      "Recent conversation context:\n" ++ summary

structure ConversationStats where
  messageCount : Nat
  createdAt : Nat
  lastAccessed : Nat
  estimatedTokens : Nat
deriving DecidableEq, Repr

/-- `getConversationStats`: `null` for an unknown session, otherwise the
message count, timestamps and estimated token total. -/
def getConversationStats (st : ConvState) (sessionId : String) :
    Option ConversationStats :=
  match lookupConv st.conversations sessionId with
  | none => none
  | some conversation =>
    some ⟨conversation.messages.length, conversation.createdAt,
      conversation.lastAccessed, estimateTokens conversation.messages⟩

/-- Messages currently stored for a session (empty for an unknown id);
used to state the trimming claims. -/
def sessionMessages (st : ConvState) (sessionId : String) : List Message :=
  match lookupConv st.conversations sessionId with
  | none => []
  | some conversation => conversation.messages

/-! ### ChatService (src/services/chat.js) -/

/-- `buildPrompt(query, documentContext, conversationContext = '')`: the single
prompt template; the conversation block is included only when the third
argument is a non-empty (truthy) string. -/
def buildPrompt (query documentContext conversationContext : String) : String :=
  "You are a specialist AI agent with expertise in document analysis and question answering. Use the provided context to answer the user\x27s question accurately and comprehensively.\n\nDocument Context:\n"
    ++ documentContext
    ++ (if conversationContext = "" then ""
        else "\n\nConversation Context:\n" ++ conversationContext)
    ++ "\n\nQuestion: " ++ query
    ++ "\n\nInstructions:\n- Answer based primarily on the provided document context\n- Use conversation context to maintain continuity and provide more relevant responses\n- Be specific and detailed in your response\n- If the context doesn\x27t contain enough information, clearly state what\x27s missing\n- Cite specific sources when possible\n- Maintain a professional and knowledgeable tone\n- Reference previous parts of the conversation when relevant\n\nAnswer:"

/-- The prompt `generateResponse(query, context)` sends to the chat model.
The source function declares exactly two parameters and calls
`buildPrompt(query, context)`, so `buildPrompt` runs with its default
`conversationContext = ''`. -/
def generateResponsePrompt (query context : String) : String :=
  buildPrompt query context ""

/-- A retrieved document as consumed by `answerQuestion` (only the fields it
reads: `content` and `metadata.source`). -/
structure RetrievedDoc where
  content : String
  source : String
deriving DecidableEq, Repr

/-- The prompt `answerQuestion` sends to the chat model, as a function of the
conversation state, the question, the optional session id and the retrieved
documents.  The source calls
`this.generateResponse(question, documentContext, conversationContextText)`,
but `generateResponse` binds only `(query, context)`, so in ECMAScript the
third argument is discarded at the call. -/
def answerQuestionPrompt (st : ConvState) (question : String)
    (sessionId : Option String) (relevantDocs : List RetrievedDoc) : String :=
  let documentContext := joinSep "\n\n---\n\n"
    (relevantDocs.map fun doc => "Source: " ++ doc.source ++ "\n" ++ doc.content)
  let conversationContextText :=
    match sessionId with
    | some sid => getConversationSummary st sid
    | none => ""
  generateResponsePrompt question documentContext

/-- Substring occurrence test (`String.prototype.includes`). -/
def strContains (pat s : String) : Bool :=
  (List.range (s.data.length + 1)).any fun i => pat.data.isPrefixOf (s.data.drop i)

/-! ### SimpleVectorStore (src/services/simpleVectorStore.js)

Float vectors are idealised as `List ℝ`; the embedding service is an opaque
function parameter `embed`.  `Date.now()` is the explicit parameter `now`. -/

/-- Decimal digits of `n`, most significant first, with explicit fuel
(`fuel > n` suffices); models ECMAScript number-to-string conversion as used
in the template literal `doc_${Date.now()}_${index}`. -/
def natCharsAux : Nat → Nat → List Char
  | 0, _ => []
  | fuel + 1, n =>
    if n < 10 then [Nat.digitChar n]
    else natCharsAux fuel (n / 10) ++ [Nat.digitChar (n % 10)]

/-- Decimal representation of `n`. -/
def natChars (n : Nat) : List Char :=
  natCharsAux (n + 1) n

/-- Decimal string of `n`. -/
def natToString (n : Nat) : String :=
  ⟨natChars n⟩

/-- The record id generated by `SimpleVectorStore.addDocuments`:
`doc_${Date.now()}_${index}`. -/
def mkDocId (now index : Nat) : String :=
  "doc_" ++ natToString now ++ "_" ++ natToString index

/-- A chunk as passed to `addDocuments` (optional fields mirror the
`doc.source || 'unknown'`-style defaults in the source). -/
structure ChunkDoc where
  content : String
  source : Option String
  title : Option String
  chunkIndex : Option Nat
deriving Repr

structure VecMetadata where
  source : String
  title : String
  chunk_index : Nat
deriving Repr

/-- The in-process vector store: four parallel arrays plus the collection
name (the storage path is irrelevant to the modelled behaviour). -/
structure VectorStore where
  documents : List String
  embeddings : List (List ℝ)
  metadatas : List VecMetadata
  ids : List String
  collectionName : String

/-- A store as built by the constructor: empty arrays, the collection name
taken from the environment (parameter `name`). -/
def freshStore (name : String) : VectorStore :=
  ⟨[], [], [], [], name⟩

/-- `addDocuments`: embed every chunk, generate ids `doc_${now}_${index}`,
build the metadata records, and append all four parallel arrays.  (The
write-through `saveToStorage` call does not change the in-memory state.) -/
def addDocuments (embed : String → List ℝ) (st : VectorStore)
    (documents : List ChunkDoc) (now : Nat) : VectorStore :=
  let texts := documents.map (·.content)
  let embeddings := texts.map embed
  let ids := (List.range documents.length).map fun index => mkDocId now index
  let metadatas := documents.map fun doc =>
    (⟨doc.source.getD "unknown", doc.title.getD "untitled",
      doc.chunkIndex.getD 0⟩ : VecMetadata)
  { st with
    documents := st.documents ++ texts
    embeddings := st.embeddings ++ embeddings
    metadatas := st.metadatas ++ metadatas
    ids := st.ids ++ ids }

/-- The accumulated `dotProduct` of `cosineSimilarity`: sum of pairwise
products over the common indices. -/
def dotProduct (a b : List ℝ) : ℝ :=
  ((a.zip b).map fun p => p.1 * p.2).sum

/-- `cosineSimilarity`: 0 for mismatched lengths, otherwise the dot product
divided by `Math.sqrt(normA) * Math.sqrt(normB)` where `normA`/`normB` are
the sums of squares accumulated by the same loop. -/
noncomputable def cosineSimilarity (a b : List ℝ) : ℝ :=
  if a.length ≠ b.length then 0
  else dotProduct a b / (Real.sqrt (dotProduct a a) * Real.sqrt (dotProduct b b))

structure SearchResult where
  content : String
  metadata : VecMetadata
  distance : ℝ
  similarity : ℝ

/-- The mapped result array of `similarity_search`, before sorting:
one record per stored embedding, in store order. -/
noncomputable def buildResults (embed : String → List ℝ) (st : VectorStore)
    (query : String) : List SearchResult :=
  let queryEmbedding := embed query
  let similarities := st.embeddings.map fun e => cosineSimilarity queryEmbedding e
  similarities.enum.map fun p =>
    ⟨st.documents.getD p.1 "", st.metadatas.getD p.1 ⟨"unknown", "untitled", 0⟩,
      1 - p.2, p.2⟩

/-- `similarity_search(query, k)`: empty result on an empty index, otherwise
sort the mapped records by descending similarity (the comparator
`(a, b) => b.similarity - a.similarity`, i.e. `a` stays before `b` when
`b.similarity ≤ a.similarity`) and keep the first `k`. -/
noncomputable def similarity_search (embed : String → List ℝ) (st : VectorStore)
    (query : String) (k : Nat) : List SearchResult :=
  if st.embeddings.length = 0 then []
  else
    ((buildResults embed st query).mergeSort
      fun a b => decide (b.similarity ≤ a.similarity)).take k

/-- The JSON snapshot written by `saveToStorage`: all five fields present.
Fields are `Option`-valued so that `loadFromStorage` can model the
`parsed.documents || []` defaulting applied on read. -/
structure StoredData where
  documents : Option (List String)
  embeddings : Option (List (List ℝ))
  metadatas : Option (List VecMetadata)
  ids : Option (List String)
  collectionName : Option String

/-- `saveToStorage`: serialize the full state. -/
def saveToStorage (st : VectorStore) : StoredData :=
  ⟨some st.documents, some st.embeddings, some st.metadatas, some st.ids,
    some st.collectionName⟩

/-- `loadFromStorage`: replace the state of `st` by the parsed snapshot,
with `|| []` (resp. `|| this.collectionName`, which also treats the empty
string as falsy) defaulting for absent fields. -/
def loadFromStorage (data : StoredData) (st : VectorStore) : VectorStore :=
  { documents := data.documents.getD []
    embeddings := data.embeddings.getD []
    metadatas := data.metadatas.getD []
    ids := data.ids.getD []
    collectionName :=
      match data.collectionName with
      | none => st.collectionName
      | some s => if s = "" then st.collectionName else s }

/-! ### Spec-side notions -/

/-- Spec-side: the magnitude (Euclidean norm) of a vector. -/
noncomputable def magnitude (v : List ℝ) : ℝ :=
  Real.sqrt ((v.map fun x => x * x).sum)

/-- Spec-side: the last `n` elements of a list (the window of most-recent
messages described by the spec). -/
def lastWindow (n : Nat) (l : List α) : List α :=
  l.drop (l.length - n)

/-! ### Concrete states used by counterexamples and witnesses -/

/-- A concrete user message. -/
def demoMsg : Message :=
  ⟨"m1", "user", "hi", 0, []⟩

/-- A concrete one-message conversation. -/
def demoConv : Conversation :=
  ⟨[demoMsg], 0, 0⟩

/-- A concrete service state holding session `"s"` with one stored message,
under the default configuration (10 messages / 4000 tokens). -/
def demoState : ConvState :=
  ⟨[("s", demoConv)], 10, 4000⟩

/-- The default-configuration service state with no sessions. -/
def emptyCtx : ConvState :=
  ⟨[], 10, 4000⟩

/-! ### Lemmas about the splitter -/

lemma dropWhile_idem (p : α → Bool) (l : List α) :
    (l.dropWhile p).dropWhile p = l.dropWhile p := by
  induction l with
  | nil => rfl
  | cons a l ih =>
    by_cases h : p a
    · simpa [List.dropWhile_cons_of_pos h] using ih
    · simp [List.dropWhile_cons_of_neg h]

lemma jsTrim_idem (s : List Char) : jsTrim (jsTrim s) = jsTrim s := by
  unfold jsTrim
  set w := jsWhitespace
  set t := s.dropWhile w with ht
  set r := (t.reverse.dropWhile w).reverse with hr
  have hrt : r <+: t := by
    obtain ⟨u, hu⟩ := List.dropWhile_suffix (l := t.reverse) w
    refine ⟨u.reverse, ?_⟩
    rw [hr, ← List.reverse_append, hu, List.reverse_reverse]
  have htw : t.dropWhile w = t := by
    rw [ht]; exact dropWhile_idem w s
  have hrw : r.dropWhile w = r := by
    rcases hrt with ⟨u, hu⟩
    cases hrc : r with
    | nil => simp
    | cons c cs =>
      have hc : ¬ w c := by
        intro hwc
        have : t.dropWhile w = (cs ++ u).dropWhile w := by
          rw [← hu, hrc, List.cons_append, List.dropWhile_cons_of_pos hwc]
        have hlen := congrArg List.length this
        rw [htw, ← hu, hrc] at hlen
        have hle := (List.dropWhile_sublist (l := cs ++ u) w).length_le
        simp [List.length_append] at hlen hle
        omega
      rw [List.dropWhile_cons_of_neg hc]
  rw [hrw]
  have : r.reverse.dropWhile w = r.reverse := by
    rw [hr, List.reverse_reverse]
    exact dropWhile_idem w t.reverse
  rw [this, hr, List.reverse_reverse]

lemma splitTextLoop_succ (chunkSize chunkOverlap : Nat) (text : List Char)
    (start : Int) (fuel : Nat) :
    splitTextLoop chunkSize chunkOverlap text start (fuel + 1) =
      if start < (text.length : Int) then
        (splitTextLoop chunkSize chunkOverlap text
            (splitStep chunkSize chunkOverlap text start).2 fuel).map
          ((splitStep chunkSize chunkOverlap text start).1 :: ·)
      else some [] := rfl

/-- Under `chunkOverlap ≤ 1` (and `chunkOverlap < chunkSize`), every loop
iteration strictly advances `start`. -/
lemma splitStep_advance (chunkSize chunkOverlap : Nat) (text : List Char) (start : Int)
    (hlt : chunkOverlap < chunkSize) (hco : chunkOverlap ≤ 1) :
    start + 1 ≤ (splitStep chunkSize chunkOverlap text start).2 := by
  unfold splitStep
  dsimp only
  split
  · split
    · omega
    · omega
  · omega

lemma splitTextLoop_isSome (chunkSize chunkOverlap : Nat) (text : List Char)
    (hlt : chunkOverlap < chunkSize) (hco : chunkOverlap ≤ 1) :
    ∀ (fuel : Nat) (start : Int), (text.length : Int) ≤ start + fuel →
      (splitTextLoop chunkSize chunkOverlap text start (fuel + 1)).isSome := by
  intro fuel
  induction fuel with
  | zero =>
    intro start h
    have hns : ¬ start < (text.length : Int) := by omega
    simp [splitTextLoop, hns]
  | succ n ih =>
    intro start h
    by_cases hs : start < (text.length : Int)
    · have hadv := splitStep_advance chunkSize chunkOverlap text start hlt hco
      have := ih (splitStep chunkSize chunkOverlap text start).2 (by omega)
      rw [splitTextLoop_succ chunkSize chunkOverlap text start (n + 1), if_pos hs,
        Option.isSome_map']
      exact this
    · simp [splitTextLoop, hs]

lemma splitStep_fst_trimmed (chunkSize chunkOverlap : Nat) (text : List Char) (start : Int) :
    ∃ raw, (splitStep chunkSize chunkOverlap text start).1 = jsTrim raw := by
  unfold splitStep
  exact ⟨_, rfl⟩

/-- Every chunk the loop emits is the result of `jsTrim`. -/
lemma splitTextLoop_chunks_trimmed (chunkSize chunkOverlap : Nat) (text : List Char) :
    ∀ (fuel : Nat) (start : Int) (l : List (List Char)),
      splitTextLoop chunkSize chunkOverlap text start fuel = some l →
      ∀ c ∈ l, ∃ raw, c = jsTrim raw := by
  intro fuel
  induction fuel with
  | zero => intro start l h; exact absurd h (by simp [splitTextLoop])
  | succ n ih =>
    intro start l h
    by_cases hs : start < (text.length : Int)
    · rw [splitTextLoop_succ, if_pos hs] at h
      rw [Option.map_eq_some'] at h
      obtain ⟨l', hl', rfl⟩ := h
      intro c hc
      rcases List.mem_cons.mp hc with hc | hc
      · subst hc
        exact splitStep_fst_trimmed chunkSize chunkOverlap text start
      · exact ih _ l' hl' c hc
    · rw [splitTextLoop_succ, if_neg hs] at h
      rw [Option.some.injEq] at h
      subst h
      intro c hc
      exact absurd hc (List.not_mem_nil c)


lemma c1_loop_step : (splitStep 3 2 "a. bcd".data 0).2 = 0 := by decide

lemma c1_loop_none (fuel : Nat) : splitTextLoop 3 2 "a. bcd".data 0 fuel = none := by
  induction fuel with
  | zero => rfl
  | succ n ih =>
    rw [splitTextLoop_succ 3 2 "a. bcd".data 0 n, if_pos (by decide), c1_loop_step, ih]
    rfl

/-- C1: the claim fails as stated.  With `chunkSize = 3 > 0` and
`overlap = 2 < 3`, `splitText` does not terminate on the text `"a. bcd"`:
the sentence-boundary adjustment puts `end` at 2 and `start` stays at 0
forever. -/
theorem c1_counterexample :
    (0 < 3 ∧ 2 < 3) ∧ ¬ SplitTerminates 3 2 (String.data "a. bcd") := by
  refine ⟨⟨by decide, by decide⟩, ?_⟩
  rintro ⟨fuel, hf⟩
  rw [c1_loop_none fuel] at hf
  simp at hf

/-- C1 (amended): if additionally `overlap ≤ 1`, then for every text
`splitText` terminates and every returned chunk is fixed by trimming and
non-empty. -/
theorem c1_amended_splitText_terminates (chunkSize chunkOverlap : Nat)
    (text : List Char) (hcs : 0 < chunkSize) (hlt : chunkOverlap < chunkSize)
    (hco : chunkOverlap ≤ 1) :
    SplitTerminates chunkSize chunkOverlap text ∧
    ∃ chunks, splitText chunkSize chunkOverlap text = some chunks ∧
      ∀ c ∈ chunks, jsTrim c = c ∧ c ≠ [] := by
  have hsome := splitTextLoop_isSome chunkSize chunkOverlap text hlt hco
    text.length 0 (by omega)
  constructor
  · exact ⟨text.length + 1, hsome⟩
  · obtain ⟨l, hl⟩ := Option.isSome_iff_exists.mp hsome
    refine ⟨l.filter (fun c => decide (0 < c.length)), ?_, ?_⟩
    · unfold splitText
      rw [hl]
      rfl
    · intro c hc
      have hmem := List.mem_filter.mp hc
      obtain ⟨raw, hraw⟩ :=
        splitTextLoop_chunks_trimmed chunkSize chunkOverlap text _ 0 l hl c hmem.1
      refine ⟨by rw [hraw, jsTrim_idem], ?_⟩
      intro hnil
      have := hmem.2
      rw [hnil] at this
      simp at this

theorem c1_witness :
    (0 < 3 ∧ 1 < 3 ∧ 1 ≤ 1) ∧
    (SplitTerminates 3 1 (String.data "ab. cd") ∧
      ∃ chunks, splitText 3 1 (String.data "ab. cd") = some chunks ∧
        ∀ c ∈ chunks, jsTrim c = c ∧ c ≠ []) :=
  ⟨⟨by decide, by decide, by decide⟩,
    c1_amended_splitText_terminates 3 1 (String.data "ab. cd")
      (by decide) (by decide) (by decide)⟩

/-- C2: the session `"s"` of `demoState` has a non-empty rolling summary, yet
the prompt `answerQuestion` sends to the chat model is exactly
`buildPrompt question documentContext ""` — the summary string is not
contained in it, because `generateResponse` declares only two parameters and
the `conversationContextText` argument is discarded at the call site. -/
theorem c2_prompt_never_contains_summary :
    getConversationSummary demoState "s" ≠ "" ∧
    answerQuestionPrompt demoState "q" (some "s") [] = buildPrompt "q" "" "" ∧
    strContains (getConversationSummary demoState "s")
      (answerQuestionPrompt demoState "q" (some "s") []) = false := by
  refine ⟨by decide, rfl, by decide⟩

/-! ### Conversation-manager lemmas and claims -/

lemma jsSliceDropEnd_pos (e : Nat) (l : List α) (he : 1 ≤ e) :
    jsSliceDropEnd e l = l.take (l.length - e) := by
  unfold jsSliceDropEnd
  rw [if_neg (by omega)]

lemma jsSliceFromEnd_pos (n : Nat) (l : List α) (hn : 1 ≤ n) :
    jsSliceFromEnd n l = l.drop (l.length - n) := by
  unfold jsSliceFromEnd
  rw [if_neg (by omega)]

lemma lookupConv_setConv_self (m : List (String × Conversation)) (sid : String)
    (conv : Conversation) : lookupConv (setConv m sid conv) sid = some conv := by
  induction m with
  | nil => simp [setConv, lookupConv]
  | cons p rest ih =>
    obtain ⟨k, v⟩ := p
    by_cases hk : k = sid
    · subst hk
      simp [setConv, lookupConv]
    · simp [setConv, lookupConv, hk, ih]

lemma tokenTrim_single (maxTokens : Nat) (m : Message) :
    tokenTrim maxTokens [m] = [m] := by
  simp [tokenTrim]

lemma trimConversation_single (maxContextLength maxTokens : Nat) (m : Message) :
    trimConversation maxContextLength maxTokens [m] = [m] := by
  unfold trimConversation
  by_cases h : [m].length > maxContextLength
  · have h0 : maxContextLength = 0 := by
      simp at h
      omega
    subst h0
    rw [if_pos h]
    simp [jsSliceFromEnd, tokenTrim_single]
  · rw [if_neg h]
    exact tokenTrim_single maxTokens m

/-- C3: the claim fails as stated at `excludeLast = 0`: for the one-message
session `"s"` of `demoState`, `getRecentContext` returns the empty sequence
(`slice(0, -0)` is `slice(0, 0)`), not the window `getContext` returns. -/
theorem c3_counterexample :
    getRecentContext demoState "s" 0 ≠ (getContext demoState "s" false 0).2 := by
  decide

/-- C3 (amended): for `excludeLast ≥ 1`, `getRecentContext` returns the last
`maxContextLength` messages of the session after dropping the last
`excludeLast` messages; for `excludeLast = 0` it returns the empty
sequence. -/
theorem c3_amended_getRecentContext (st : ConvState) (sessionId : String)
    (conversation : Conversation) (excludeLast : Nat)
    (h : lookupConv st.conversations sessionId = some conversation)
    (hL : 1 ≤ st.maxContextLength) :
    (1 ≤ excludeLast →
      getRecentContext st sessionId excludeLast =
        lastWindow st.maxContextLength
          (conversation.messages.take
            (conversation.messages.length - excludeLast))) ∧
    (excludeLast = 0 → getRecentContext st sessionId excludeLast = []) := by
  unfold getRecentContext
  rw [h]
  constructor
  · intro he
    show jsSliceFromEnd st.maxContextLength
      (jsSliceDropEnd excludeLast conversation.messages) = _
    rw [jsSliceDropEnd_pos _ _ he, jsSliceFromEnd_pos _ _ hL]
    rfl
  · intro he
    subst he
    show jsSliceFromEnd st.maxContextLength
      (jsSliceDropEnd 0 conversation.messages) = []
    rw [jsSliceFromEnd_pos _ _ hL]
    simp [jsSliceDropEnd]

theorem c3_witness :
    (getRecentContext demoState "s" 1 =
      lastWindow 10 (demoConv.messages.take (demoConv.messages.length - 1))) ∧
    getRecentContext demoState "s" 0 = [] :=
  ⟨(c3_amended_getRecentContext demoState "s" demoConv 1
      (by decide) (by decide)).1 (by decide),
    (c3_amended_getRecentContext demoState "s" demoConv 0
      (by decide) (by decide)).2 rfl⟩

/-- C9: `addMessage` on an unknown session id auto-creates the session and
appends the message, so `getConversationStats` then reports exactly one
message (with both timestamps at the append time and the token estimate of
the single message). -/
theorem c9_addMessage_autocreates (st : ConvState)
    (sessionId role content msgId : String) (now : Nat)
    (h : lookupConv st.conversations sessionId = none) :
    getConversationStats (addMessage st sessionId role content msgId now).1
      sessionId = some ⟨1, now, now, (content.length + 3) / 4⟩ := by
  unfold addMessage
  rw [h]
  simp only [Option.isNone_none, if_true, lookupConv_setConv_self, Option.getD_some]
  unfold getConversationStats
  simp only [lookupConv_setConv_self]
  simp [trimConversation_single, estimateTokens]

theorem c9_witness :
    lookupConv emptyCtx.conversations "x" = none ∧
    getConversationStats (addMessage emptyCtx "x" "user" "hello" "m1" 7).1 "x" =
      some ⟨1, 7, 7, 2⟩ :=
  ⟨rfl, c9_addMessage_autocreates emptyCtx "x" "user" "hello" "m1" 7 rfl⟩

/-- C10: with the preamble flag set, `getContext` on an unknown session id
returns exactly the one synthesized system message, while on a known session
with an empty message list it returns the empty sequence with no preamble. -/
theorem c10_getContext_empty_boundary (st : ConvState) (sessionId : String)
    (now : Nat) :
    (lookupConv st.conversations sessionId = none →
      (getContext st sessionId true now).2 = [systemMessage now]) ∧
    (∀ conversation, lookupConv st.conversations sessionId = some conversation →
      conversation.messages = [] → (getContext st sessionId true now).2 = []) := by
  constructor
  · intro h
    unfold getContext
    rw [h]
    rfl
  · intro conversation h hm
    unfold getContext
    rw [h]
    dsimp only
    rw [hm]
    have hempty : jsSliceFromEnd st.maxContextLength ([] : List Message) = [] := by
      unfold jsSliceFromEnd
      split <;> simp
    rw [hempty]
    simp

theorem c10_witness :
    (getContext emptyCtx "s" true 5).2 = [systemMessage 5] ∧
    (getContext (⟨[("s", ⟨[], 0, 0⟩)], 10, 4000⟩ : ConvState) "s" true 5).2 = [] :=
  ⟨(c10_getContext_empty_boundary emptyCtx "s" 5).1 rfl,
    (c10_getContext_empty_boundary ⟨[("s", ⟨[], 0, 0⟩)], 10, 4000⟩ "s" 5).2
      ⟨[], 0, 0⟩ (by decide) rfl⟩

lemma jsSliceFromEnd_suffix (n : Nat) (l : List α) : jsSliceFromEnd n l <:+ l := by
  unfold jsSliceFromEnd
  split
  · exact List.suffix_refl l
  · exact List.drop_suffix _ l

lemma tokenTrim_suffix (maxTokens : Nat) (l : List Message) :
    tokenTrim maxTokens l <:+ l := by
  induction l with
  | nil => simp [tokenTrim]
  | cons m rest ih =>
    unfold tokenTrim
    split
    · exact ih.trans (List.suffix_cons m rest)
    · exact List.suffix_refl _

lemma tokenTrim_post (maxTokens : Nat) (l : List Message) :
    estimateTokens (tokenTrim maxTokens l) ≤ maxTokens ∨
      (tokenTrim maxTokens l).length ≤ 2 := by
  induction l with
  | nil =>
    left
    simp [tokenTrim, estimateTokens]
  | cons m rest ih =>
    unfold tokenTrim
    split
    · exact ih
    · rename_i hcond
      simp only [not_and, not_lt, gt_iff_lt] at hcond
      rcases le_or_lt (estimateTokens (m :: rest)) maxTokens with hle | hgt
      · exact Or.inl hle
      · exact Or.inr (hcond hgt)

lemma trimConversation_suffix (maxContextLength maxTokens : Nat) (l : List Message) :
    trimConversation maxContextLength maxTokens l <:+ l := by
  unfold trimConversation
  refine (tokenTrim_suffix _ _).trans ?_
  split
  · exact jsSliceFromEnd_suffix _ l
  · exact List.suffix_refl l

lemma trimConversation_length (maxContextLength maxTokens : Nat) (l : List Message)
    (hL : 1 ≤ maxContextLength) :
    (trimConversation maxContextLength maxTokens l).length ≤ maxContextLength := by
  unfold trimConversation
  have h1 : ∀ m1 : List Message, m1.length ≤ maxContextLength →
      (tokenTrim maxTokens m1).length ≤ maxContextLength := fun m1 hm1 =>
    le_trans (tokenTrim_suffix maxTokens m1).length_le hm1
  split
  · rename_i hgt
    apply h1
    rw [jsSliceFromEnd_pos _ _ hL]
    rw [List.length_drop]
    omega
  · rename_i hle
    apply h1
    omega

lemma trimConversation_tokens (maxContextLength maxTokens : Nat) (l : List Message) :
    estimateTokens (trimConversation maxContextLength maxTokens l) ≤ maxTokens ∨
      (trimConversation maxContextLength maxTokens l).length ≤ 2 := by
  unfold trimConversation
  exact tokenTrim_post maxTokens _

/-- After `addMessage`, the stored conversation is exactly the trimmed
extension of the previous message list, with `lastAccessed` updated. -/
lemma addMessage_lookup (st : ConvState) (sessionId role content msgId : String)
    (now : Nat) :
    ∃ created,
      lookupConv (addMessage st sessionId role content msgId now).1.conversations
          sessionId =
        some ⟨trimConversation st.maxContextLength st.maxTokens
            (sessionMessages st sessionId ++ [⟨msgId, role, content, now, []⟩]),
          created, now⟩ := by
  unfold addMessage sessionMessages
  cases h : lookupConv st.conversations sessionId with
  | none =>
    refine ⟨now, ?_⟩
    simp [h, lookupConv_setConv_self]
  | some conversation =>
    refine ⟨conversation.createdAt, ?_⟩
    simp [h, lookupConv_setConv_self]

/-- C5: after any single `addMessage` (hence, inductively, after each append
of any sequence), the stored session holds at most `maxContextLength`
messages, its estimated token sum is within `maxTokens` unless at most 2
messages remain, and the stored list is a suffix of the previous messages
extended by the new one (trimming removes only from the oldest end). -/
theorem c5_addMessage_trim_invariant (st : ConvState)
    (sessionId role content msgId : String) (now : Nat)
    (hL : 1 ≤ st.maxContextLength) :
    ∃ conversation,
      lookupConv (addMessage st sessionId role content msgId now).1.conversations
          sessionId = some conversation ∧
      conversation.messages.length ≤ st.maxContextLength ∧
      (estimateTokens conversation.messages ≤ st.maxTokens ∨
        conversation.messages.length ≤ 2) ∧
      conversation.messages <:+
        sessionMessages st sessionId ++
          [(addMessage st sessionId role content msgId now).2] := by
  obtain ⟨created, hlk⟩ :=
    addMessage_lookup st sessionId role content msgId now
  refine ⟨_, hlk, ?_, ?_, ?_⟩
  · exact trimConversation_length _ _ _ hL
  · exact trimConversation_tokens _ _ _
  · exact trimConversation_suffix _ _ _

theorem c5_witness :
    1 ≤ demoState.maxContextLength ∧
    ∃ conversation,
      lookupConv (addMessage demoState "s" "assistant" "hello there" "m2" 3).1.conversations
          "s" = some conversation ∧
      conversation.messages.length ≤ demoState.maxContextLength ∧
      (estimateTokens conversation.messages ≤ demoState.maxTokens ∨
        conversation.messages.length ≤ 2) ∧
      conversation.messages <:+
        sessionMessages demoState "s" ++
          [(addMessage demoState "s" "assistant" "hello there" "m2" 3).2] :=
  ⟨by decide,
    c5_addMessage_trim_invariant demoState "s" "assistant" "hello there" "m2" 3
      (by decide)⟩

/-! ### Vector-store id lemmas and claims -/

lemma natCharsAux_congr : ∀ (f g n : Nat), n < f → n < g →
    natCharsAux f n = natCharsAux g n := by
  intro f
  induction f with
  | zero => intro g n hf hg; omega
  | succ f ih =>
    intro g n hf hg
    cases g with
    | zero => omega
    | succ g =>
      simp only [natCharsAux]
      by_cases h10 : n < 10
      · simp [h10]
      · have hdiv : n / 10 < n := Nat.div_lt_self (by omega) (by omega)
        rw [if_neg h10, if_neg h10, ih g (n / 10) (by omega) (by omega)]

lemma natChars_eq (n : Nat) :
    natChars n = if n < 10 then [Nat.digitChar n]
      else natChars (n / 10) ++ [Nat.digitChar (n % 10)] := by
  unfold natChars
  rw [natCharsAux]
  by_cases h10 : n < 10
  · simp [h10]
  · have hdiv : n / 10 < n := Nat.div_lt_self (by omega) (by omega)
    rw [if_neg h10, if_neg h10,
      natCharsAux_congr n (n / 10 + 1) (n / 10) (by omega) (by omega)]

lemma natChars_ne_nil (n : Nat) : natChars n ≠ [] := by
  rw [natChars_eq]
  split
  · simp
  · simp

lemma digitChar_inj_lt : ∀ m, m < 10 → ∀ n, n < 10 →
    Nat.digitChar m = Nat.digitChar n → m = n := by
  decide

lemma digitChar_ne_underscore : ∀ m, m < 10 → Nat.digitChar m ≠ '_' := by
  decide

lemma natChars_no_underscore (n : Nat) : ∀ c ∈ natChars n, c ≠ '_' := by
  induction n using Nat.strong_induction_on with
  | _ n ih =>
    rw [natChars_eq]
    split
    · rename_i h10
      intro c hc
      rw [List.mem_singleton] at hc
      subst hc
      exact digitChar_ne_underscore n h10
    · rename_i h10
      intro c hc
      rcases List.mem_append.mp hc with hc | hc
      · have hdiv : n / 10 < n := Nat.div_lt_self (by omega) (by omega)
        exact ih (n / 10) hdiv c hc
      · rw [List.mem_singleton] at hc
        subst hc
        exact digitChar_ne_underscore (n % 10) (Nat.mod_lt n (by omega))

lemma natChars_inj : ∀ m n : Nat, natChars m = natChars n → m = n := by
  intro m
  induction m using Nat.strong_induction_on with
  | _ m ih =>
    intro n h
    rw [natChars_eq m, natChars_eq n] at h
    by_cases hm : m < 10 <;> by_cases hn : n < 10
    · rw [if_pos hm, if_pos hn] at h
      exact digitChar_inj_lt m hm n hn (by injection h)
    · rw [if_pos hm, if_neg hn] at h
      have hlen := congrArg List.length h
      rw [List.length_append, List.length_singleton, List.length_singleton] at hlen
      have h0 : (natChars (n / 10)).length = 0 := by omega
      exact (natChars_ne_nil (n / 10) (List.eq_nil_of_length_eq_zero h0)).elim
    · rw [if_neg hm, if_pos hn] at h
      have hlen := congrArg List.length h
      rw [List.length_append, List.length_singleton, List.length_singleton] at hlen
      have h0 : (natChars (m / 10)).length = 0 := by omega
      exact (natChars_ne_nil (m / 10) (List.eq_nil_of_length_eq_zero h0)).elim
    · rw [if_neg hm, if_neg hn] at h
      have hmn := List.append_inj' h (by simp)
      have hdiv : m / 10 < m := Nat.div_lt_self (by omega) (by omega)
      have h1 : m / 10 = n / 10 := ih (m / 10) hdiv (n / 10) hmn.1
      have h2 : m % 10 = n % 10 := by
        have := hmn.2
        simp only [List.cons.injEq] at this
        exact digitChar_inj_lt (m % 10) (Nat.mod_lt m (by omega)) (n % 10)
          (Nat.mod_lt n (by omega)) this.1
      omega

lemma sep_append_inj (sep : Char) :
    ∀ (A B I J : List Char), sep ∉ A → sep ∉ B →
      A ++ sep :: I = B ++ sep :: J → A = B ∧ I = J := by
  intro A
  induction A with
  | nil =>
    intro B I J _ hB h
    cases B with
    | nil =>
      simp only [List.nil_append, List.cons.injEq] at h
      exact ⟨rfl, h.2⟩
    | cons b bs =>
      simp only [List.nil_append, List.cons_append, List.cons.injEq] at h
      exact absurd (by rw [h.1]; exact List.mem_cons_self b bs : sep ∈ b :: bs) hB
  | cons a as ihA =>
    intro B I J hA hB h
    cases B with
    | nil =>
      simp only [List.cons_append, List.nil_append, List.cons.injEq] at h
      exact absurd (by rw [← h.1]; exact List.mem_cons_self a as : sep ∈ a :: as) hA
    | cons b bs =>
      simp only [List.cons_append, List.cons.injEq] at h
      obtain ⟨hab, hrest⟩ := h
      have := ihA bs I J (fun hm => hA (List.mem_cons_of_mem a hm))
        (fun hm => hB (List.mem_cons_of_mem b hm)) hrest
      exact ⟨by rw [hab, this.1], this.2⟩

lemma mkDocId_inj (now index now2 index2 : Nat) :
    mkDocId now index = mkDocId now2 index2 ↔ now = now2 ∧ index = index2 := by
  constructor
  · intro h
    unfold mkDocId natToString at h
    rw [String.ext_iff] at h
    simp only [String.data_append] at h
    have h2 : natChars now ++ '_' :: natChars index =
        natChars now2 ++ '_' :: natChars index2 := by
      simp only [List.append_assoc] at h
      have := List.append_cancel_left h
      simpa [List.singleton_append] using this
    have := sep_append_inj '_' (natChars now) (natChars now2)
      (natChars index) (natChars index2)
      (fun hm => (natChars_no_underscore now '_' hm) rfl)
      (fun hm => (natChars_no_underscore now2 '_' hm) rfl) h2
    exact ⟨natChars_inj _ _ this.1, natChars_inj _ _ this.2⟩
  · rintro ⟨rfl, rfl⟩
    rfl

lemma addDocuments_ids (embed : String → List ℝ) (st : VectorStore)
    (documents : List ChunkDoc) (now : Nat) :
    (addDocuments embed st documents now).ids =
      st.ids ++ (List.range documents.length).map (mkDocId now) := rfl

/-- C4: the claim fails as stated.  Two `addDocuments` calls that observe the
same `Date.now()` value (here both in millisecond 5) generate the identical
id `doc_5_0`, so the store ends up with a duplicated id. -/
theorem c4_counterexample :
    ¬ (addDocuments (fun _ => ([] : List ℝ))
        (addDocuments (fun _ => ([] : List ℝ))
          (freshStore "specialist-agent")
          [⟨"hello", some "a", some "t", some 0⟩] 5)
        [⟨"hello", some "a", some "t", some 0⟩] 5).ids.Nodup := by
  decide

/-- C4 (amended): ids generated within a single `addDocuments` call are
pairwise distinct, and ids from two calls coincide only when the calls
observe the same `Date.now()` value; `doc_${now}_${index}` determines the
pair `(now, index)`.  Uniqueness across calls therefore holds exactly when
all calls see distinct timestamps, which the code does not guarantee. -/
theorem c4_amended_id_uniqueness :
    (∀ now index now2 index2 : Nat,
      mkDocId now index = mkDocId now2 index2 ↔ now = now2 ∧ index = index2) ∧
    (∀ (embed : String → List ℝ) (st : VectorStore) (documents : List ChunkDoc)
        (now : Nat),
      (addDocuments embed st documents now).ids =
        st.ids ++ (List.range documents.length).map (mkDocId now) ∧
      ((List.range documents.length).map (mkDocId now)).Nodup) := by
  refine ⟨mkDocId_inj, fun embed st documents now => ⟨rfl, ?_⟩⟩
  refine List.Nodup.map ?_ (List.nodup_range documents.length)
  intro i j hij
  exact ((mkDocId_inj now i now j).mp hij).2

/-! ### Similarity-search lemmas and claims -/

lemma dotProduct_self_eq (a : List ℝ) :
    dotProduct a a = (a.map fun x => x * x).sum := by
  induction a with
  | nil => rfl
  | cons x xs ih =>
    simp only [dotProduct, List.zip_cons_cons, List.map_cons, List.sum_cons] at *
    rw [ih]

lemma dotProduct_self_nonneg (a : List ℝ) : 0 ≤ dotProduct a a := by
  rw [dotProduct_self_eq]
  apply List.sum_nonneg
  intro x hx
  obtain ⟨y, _, rfl⟩ := List.mem_map.mp hx
  exact mul_self_nonneg y

lemma buildResults_length (embed : String → List ℝ) (st : VectorStore)
    (query : String) :
    (buildResults embed st query).length = st.embeddings.length := by
  unfold buildResults
  simp

lemma buildResults_distance (embed : String → List ℝ) (st : VectorStore)
    (query : String) :
    ∀ r ∈ buildResults embed st query, r.distance = 1 - r.similarity := by
  intro r hr
  unfold buildResults at hr
  simp only [List.mem_map] at hr
  obtain ⟨p, hp, rfl⟩ := hr
  rfl

lemma mem_similarity_search (embed : String → List ℝ) (st : VectorStore)
    (query : String) (k : Nat) :
    ∀ r ∈ similarity_search embed st query k, r ∈ buildResults embed st query := by
  intro r hr
  unfold similarity_search at hr
  split at hr
  · exact absurd hr (List.not_mem_nil r)
  · exact (List.mergeSort_perm (buildResults embed st query) _).subset
      (List.mem_of_mem_take hr)

/-- C6: `similarity_search` returns a sequence of results sorted by
non-increasing similarity, of length `min k n` where `n` is the number of
stored embeddings; an empty index yields the empty sequence, and `k ≥ n`
yields all records exactly once (a permutation of the mapped record list). -/
theorem c6_similarity_search_spec (embed : String → List ℝ) (st : VectorStore)
    (query : String) (k : Nat) :
    ((similarity_search embed st query k).map SearchResult.similarity).Sorted
        (· ≥ ·) ∧
    (similarity_search embed st query k).length = min k st.embeddings.length ∧
    (st.embeddings.length = 0 → similarity_search embed st query k = []) ∧
    (st.embeddings.length ≤ k →
      (similarity_search embed st query k).Perm (buildResults embed st query)) := by
  by_cases h0 : st.embeddings.length = 0
  · have hempty : similarity_search embed st query k = [] := by
      unfold similarity_search
      rw [if_pos h0]
    have hbuild : buildResults embed st query = [] :=
      List.eq_nil_of_length_eq_zero (by rw [buildResults_length, h0])
    refine ⟨?_, ?_, fun _ => hempty, fun _ => ?_⟩
    · rw [hempty]
      exact List.sorted_nil
    · rw [hempty, h0]
      simp
    · rw [hempty, hbuild]
  · have hunfold : similarity_search embed st query k =
        ((buildResults embed st query).mergeSort
          fun a b => decide (b.similarity ≤ a.similarity)).take k := by
      unfold similarity_search
      rw [if_neg h0]
    have htrans : ∀ a b c : SearchResult,
        (fun a b => decide (b.similarity ≤ a.similarity)) a b →
        (fun a b => decide (b.similarity ≤ a.similarity)) b c →
        (fun a b => decide (b.similarity ≤ a.similarity)) a c := by
      intro a b c h1 h2
      simp only [decide_eq_true_eq] at *
      exact le_trans h2 h1
    have htotal : ∀ a b : SearchResult,
        ((fun a b => decide (b.similarity ≤ a.similarity)) a b ||
          (fun a b => decide (b.similarity ≤ a.similarity)) b a) = true := by
      intro a b
      simp only [Bool.or_eq_true, decide_eq_true_eq]
      exact le_total _ _
    have hpair := List.sorted_mergeSort htrans htotal (buildResults embed st query)
    refine ⟨?_, ?_, fun hz => absurd hz h0, ?_⟩
    · rw [hunfold]
      have hptake := hpair.sublist (List.take_sublist k _)
      have : (((buildResults embed st query).mergeSort
          fun a b => decide (b.similarity ≤ a.similarity)).take k).Pairwise
            (fun a b => b.similarity ≤ a.similarity) := by
        refine hptake.imp ?_
        intro a b hab
        simpa using hab
      exact (List.pairwise_map).mpr this
    · rw [hunfold, List.length_take, List.length_mergeSort, buildResults_length]
    · intro hk
      rw [hunfold, List.take_of_length_le
        (by rw [List.length_mergeSort, buildResults_length]; exact hk)]
      exact List.mergeSort_perm _ _

theorem c6_witness :
    similarity_search (fun _ => ([] : List ℝ)) (freshStore "specialist-agent")
        "q" 0 = [] ∧
    (similarity_search (fun _ => ([] : List ℝ)) (freshStore "specialist-agent")
        "q" 0).Perm
      (buildResults (fun _ => ([] : List ℝ)) (freshStore "specialist-agent") "q") := by
  have h := c6_similarity_search_spec (fun _ => ([] : List ℝ))
    (freshStore "specialist-agent") "q" 0
  exact ⟨h.2.2.1 rfl, h.2.2.2 (Nat.le_refl 0)⟩

/-- C7: the similarity metric is cosine similarity — for equal-length vectors
it is the dot product over the product of the magnitudes and every search
result satisfies `distance = 1 - similarity`; mismatched lengths yield 0; a
non-zero vector has self-similarity 1 and similarity 0 with any non-zero
orthogonal vector of the same length. -/
theorem c7_cosine_spec :
    (∀ a b : List ℝ, a.length = b.length →
      cosineSimilarity a b = dotProduct a b / (magnitude a * magnitude b)) ∧
    (∀ a b : List ℝ, a.length ≠ b.length → cosineSimilarity a b = 0) ∧
    (∀ a : List ℝ, dotProduct a a ≠ 0 → cosineSimilarity a a = 1) ∧
    (∀ a b : List ℝ, a.length = b.length → dotProduct a a ≠ 0 →
      dotProduct b b ≠ 0 → dotProduct a b = 0 → cosineSimilarity a b = 0) ∧
    (∀ (embed : String → List ℝ) (st : VectorStore) (query : String) (k : Nat),
      ∀ r ∈ similarity_search embed st query k,
        r.distance = 1 - r.similarity) := by
  refine ⟨?_, ?_, ?_, ?_, ?_⟩
  · intro a b h
    unfold cosineSimilarity magnitude
    rw [if_neg (by omega), ← dotProduct_self_eq, ← dotProduct_self_eq]
  · intro a b h
    unfold cosineSimilarity
    rw [if_pos h]
  · intro a h
    unfold cosineSimilarity
    rw [if_neg (by omega), Real.mul_self_sqrt (dotProduct_self_nonneg a),
      div_self h]
  · intro a b hlen ha hb hdot
    unfold cosineSimilarity
    rw [if_neg (by omega), hdot, zero_div]
  · intro embed st query k r hr
    exact buildResults_distance embed st query r
      (mem_similarity_search embed st query k r hr)

theorem c7_witness :
    cosineSimilarity [(1 : ℝ), 0] [1, 0] = 1 ∧
    cosineSimilarity [(1 : ℝ), 0] [0, 1] = 0 ∧
    cosineSimilarity [(1 : ℝ)] [] = 0 ∧
    cosineSimilarity [(1 : ℝ), 0] [1, 0] =
      dotProduct [(1 : ℝ), 0] [1, 0] /
        (magnitude [(1 : ℝ), 0] * magnitude [(1 : ℝ), 0]) := by
  have h := c7_cosine_spec
  have hdot : dotProduct [(1 : ℝ), 0] [1, 0] = 1 := by
    norm_num [dotProduct]
  have hdot2 : dotProduct [(0 : ℝ), 1] [0, 1] = 1 := by
    norm_num [dotProduct]
  have hdot3 : dotProduct [(1 : ℝ), 0] [0, 1] = 0 := by
    norm_num [dotProduct]
  refine ⟨h.2.2.1 [(1 : ℝ), 0] (by rw [hdot]; norm_num),
    h.2.2.2.1 [(1 : ℝ), 0] [0, 1] rfl (by rw [hdot]; norm_num)
      (by rw [hdot2]; norm_num) hdot3,
    h.2.1 [(1 : ℝ)] [] (by simp),
    h.1 [(1 : ℝ), 0] [1, 0] rfl⟩

/-- C8: serializing the in-process index and deserializing the snapshot into
a fresh instance yields an index whose `similarity_search` results are
identical to the pre-serialization results for every query and `k`. -/
theorem c8_persistence_roundtrip (embed : String → List ℝ) (st : VectorStore)
    (query : String) (k : Nat) (name : String) :
    similarity_search embed (loadFromStorage (saveToStorage st) (freshStore name))
        query k = similarity_search embed st query k := rfl

end RagAgent
